import Mathlib

/-!
Verification of `timer_generator.py` (rodrimadrid/countdown).

This file shallowly embeds the pure logic of the countdown-timer generator:
the timer-expression compiler (`parse_timer_expression`), the frame cache
manager (`check_or_generate_frames`, `load_frame_paths`), the segment reuse
resolver (`reuse_video`), the audio-length arithmetic of `prepare_audio`,
and the control flow of the orchestrator `generate_timer_video`.
Filesystem state is modelled as a membership predicate `String → Bool`;
external collaborators (image/audio/video libraries, `shutil.copy`) are
modelled by success/failure oracles.  Python strings are Lean `String`s and
Python's `str(int)` is embedded as `pyStr`.
-/

namespace Countdown

/-! ### Embedding of Python's `str(int)` on non-negative integers -/

/-- One decimal digit character, as Python produces it (`Nat.digitChar` agrees
with Python for arguments below 10). -/
def pyDigit (d : Nat) : Char := Nat.digitChar d

/-- Fuel-indexed accumulator loop producing the decimal digits of `n` (most
significant first) in front of `acc`; any fuel `≥ n` suffices. -/
def pyStrCoreF : Nat → Nat → List Char → List Char
  | 0, _, acc => acc
  | fuel + 1, n, acc =>
    if n = 0 then acc
    else pyStrCoreF fuel (n / 10) (pyDigit (n % 10) :: acc)

/-- Accumulator loop producing the decimal digits of `n` (most significant
first) in front of `acc`. -/
def pyStrCore (n : Nat) (acc : List Char) : List Char :=
  pyStrCoreF n n acc

/-- The character list of Python's `str(n)` for a non-negative integer. -/
def pyStrChars (n : Nat) : List Char :=
  if n = 0 then ['0'] else pyStrCore n []

/-- Embedding of Python's `str(n)` for `n : Nat`. -/
def pyStr (n : Nat) : String := ⟨pyStrChars n⟩

/-- Embedding of Python's `f"{n:02}"`: left-pad the decimal form with `'0'`
to width two. -/
def pyStr02 (n : Nat) : String :=
  if n < 10 then ⟨'0' :: pyStrChars n⟩ else ⟨pyStrChars n⟩

/-- Decimal value of a digit-character list (most significant first). -/
def charsVal (cs : List Char) : Nat :=
  cs.foldl (fun a c => a * 10 + (c.toNat - '0'.toNat)) 0

/-! ### Expression Compiler: `parse_timer_expression`

`re.findall(r'm(\d+)|x(\d+)', expression)` yields, left to right, the
non-overlapping matches of the pattern: a literal `'m'` (resp. `'x'`)
followed by a maximal non-empty run of decimal digits; any character not
starting such a match is skipped.  `TimerToken.m n` embeds a match of the
first alternative with `int(group) = n`, `TimerToken.x n` the second. -/

inductive TimerToken where
  | m (n : Nat)
  | x (n : Nat)
deriving DecidableEq, Repr

/-- Scanner over the character list embedding `re.findall` for the pattern
`m(\d+)|x(\d+)`: at each position, a literal `'m'` or `'x'` followed by a
maximal non-empty digit run yields a token and the scan resumes after the
run; otherwise one character is skipped.  The `fuel` argument (instantiated
with the list length, which bounds the number of scan steps) makes the
recursion structural. -/
def findTimerTokensF : Nat → List Char → List TimerToken
  | 0, _ => []
  | _ + 1, [] => []
  | fuel + 1, c :: rest =>
    if c = 'm' ∨ c = 'x' then
      match rest.takeWhile Char.isDigit with
      | [] => findTimerTokensF fuel rest
      | d :: ds =>
        (if c = 'm' then TimerToken.m (charsVal (d :: ds))
         else TimerToken.x (charsVal (d :: ds))) ::
          findTimerTokensF fuel (rest.dropWhile Char.isDigit)
    else findTimerTokensF fuel rest

/-- The token list of `re.findall(r'm(\d+)|x(\d+)', ·)` on a character list. -/
def findTimerTokens (l : List Char) : List TimerToken :=
  findTimerTokensF l.length l

/-- Python's `lst * k` (list repetition). -/
def listMul {α : Type} (l : List α) (k : Nat) : List α :=
  (List.replicate k l).flatten

/-- The first loop of `parse_timer_expression`: accumulates `timers` and the
pending `repeat_sequence` exactly as the Python loop does. -/
def parseTimersLoop : List TimerToken → List Nat → List Nat → List Nat
  | [], timers, pending => timers ++ pending
  | TimerToken.m n :: rest, timers, pending =>
      parseTimersLoop rest timers (pending ++ [n])
  | TimerToken.x n :: rest, timers, pending =>
      parseTimersLoop rest (timers ++ listMul pending n) []

/-- The duration list (in minutes) computed by `parse_timer_expression`. -/
def timersOfExpr (expression : String) : List Nat :=
  parseTimersLoop (findTimerTokens expression.data) [] []

/-- The second loop of `parse_timer_expression`: assigns file names using the
`counter` dictionary keyed by the base name string. -/
def assignNamesLoop : List Nat → (String → Option Nat) → List String
  | [], _ => []
  | minutes :: rest, counter =>
    let baseName := "timer_" ++ pyStr minutes ++ "m"
    match counter baseName with
    | some c =>
        (baseName ++ "_" ++ pyStr (c + 1) ++ ".mp4") ::
          assignNamesLoop rest (fun k => if k = baseName then some (c + 1) else counter k)
    | none =>
        (baseName ++ ".mp4") ::
          assignNamesLoop rest (fun k => if k = baseName then some 1 else counter k)

/-- File names assigned by `parse_timer_expression` (counter starts empty). -/
def fileNamesOf (timers : List Nat) : List String :=
  assignNamesLoop timers (fun _ => none)

/-- Embedding of `parse_timer_expression`: `list(zip(timers, file_names))`. -/
def parse_timer_expression (expression : String) : List (Nat × String) :=
  (timersOfExpr expression).zip (fileNamesOf (timersOfExpr expression))

/-! ### Spec-side formulation of the expression-compiler algorithm (§4.1)

`specScan` follows the spec's wording by explicit batch decomposition:
the batch of minute tokens before the next repeat marker is multiplied by
the marker's count; minute tokens left at the end are appended once.
`expandedCountLoop` independently counts the minute tokens after
expansion.  They are compared against the embedded loop. -/

/-- Whether a token is a minute token `m<digits>`. -/
def isMinuteTok : TimerToken → Bool
  | TimerToken.m _ => true
  | TimerToken.x _ => false

/-- The numeric payload of a token. -/
def tokVal : TimerToken → Nat
  | TimerToken.m n => n
  | TimerToken.x n => n

/-- Modelled from the spec's algorithm description (§4.1), by batch
decomposition: the leading run of minute tokens is the pending batch; a
following repeat marker multiplies exactly that batch; a batch at the end
of the expression is appended once. -/
def specScan (toks : List TimerToken) : List Nat :=
  match h : toks.dropWhile isMinuteTok with
  | [] => (toks.takeWhile isMinuteTok).map tokVal
  | t :: rest =>
      listMul ((toks.takeWhile isMinuteTok).map tokVal) (tokVal t) ++ specScan rest
termination_by toks.length
decreasing_by
  have hle := (List.dropWhile_sublist (l := toks) isMinuteTok).length_le
  rw [h] at hle
  simp only [List.length_cons] at hle
  omega

/-- Number of minute tokens after expansion: each repeat marker `x k`
contributes `k` copies of the pending batch (of size `pend`), a trailing
batch contributes once. -/
def expandedCountLoop : List TimerToken → Nat → Nat
  | [], pend => pend
  | TimerToken.m _ :: rest, pend => expandedCountLoop rest (pend + 1)
  | TimerToken.x k :: rest, pend => k * pend + expandedCountLoop rest 0

/-- Number of minute tokens of a token list after expansion. -/
def expandedCount (toks : List TimerToken) : Nat :=
  expandedCountLoop toks 0

/-! ### Spec-side formulation of the naming scheme (§4.1 Naming) -/

/-- The file name the spec assigns to the `occ`-th occurrence (1-based) of a
given minute value: no suffix for the first occurrence, suffix `_occ`
afterwards. -/
def specName (minutes occ : Nat) : String :=
  let baseName := "timer_" ++ pyStr minutes ++ "m"
  if occ = 1 then baseName ++ ".mp4" else baseName ++ "_" ++ pyStr occ ++ ".mp4"

/-- Modelled from the spec: a running counter keyed by minute value, scoped
to the whole expression; `seen` is the list of minute values already
processed. -/
def specNamesFrom (seen : List Nat) : List Nat → List String
  | [] => []
  | minutes :: rest =>
      specName minutes (seen.count minutes + 1) :: specNamesFrom (seen ++ [minutes]) rest

/-- The file-name list the spec's naming rule assigns to a duration list. -/
def specNames (timers : List Nat) : List String :=
  specNamesFrom [] timers

/-- The invariant tying the Python `counter` dictionary (keyed by base-name
string) to the multiset of minute values already processed. -/
def CounterInv (counter : String → Option Nat) (seen : List Nat) : Prop :=
  ∀ m : Nat, counter ("timer_" ++ pyStr m ++ "m") =
    if seen.count m = 0 then none else some (seen.count m)

/-! ### Projections of `parse_timer_expression` and the Multi-Timer Driver -/

/-- The `(durationSeconds, filename)` pairs with which the expression branch
of `__main__` invokes `generate_timer_video`: it passes `duration * 60`. -/
def mainSegmentCalls (expression : String) : List (Nat × String) :=
  (parse_timer_expression expression).map (fun p => (p.1 * 60, p.2))

/-! ### Path helpers (`os.path` on POSIX) and frame file names -/

/-- `os.path.join(a, b)` for POSIX paths (two arguments, as used here). -/
def pathJoin (a b : String) : String :=
  if b.data.head? = some '/' then b
  else if a = "" ∨ a.data.getLast? = some '/' then a ++ b
  else a ++ "/" ++ b

/-- The file name `f"frame_{mm:02}{ss:02}.png"` with `mm, ss = divmod(s, 60)`. -/
def frameFileName (s : Nat) : String :=
  "frame_" ++ pyStr02 (s / 60) ++ pyStr02 (s % 60) ++ ".png"

/-- The alarm frame's file name (`"frame_0000.png"`). -/
def alarmFileName : String := "frame_0000.png"

/-- Python `range(duration, 0, -1)` as a list: `[duration, …, 1]`. -/
def rangeDown (duration : Nat) : List Nat :=
  (List.range duration).map (fun i => duration - i)

/-! ### Frame Cache Manager: `load_frame_paths` and `check_or_generate_frames` -/

/-- Embedding of `load_frame_paths`: for each second from `duration` down to
`1` the second's frame path repeated `frame_rate` times, then the alarm
frame path repeated `frame_rate * alarm_duration` times. -/
def load_frame_paths (duration : Nat) (frames_folder : String)
    (frame_rate alarm_duration : Nat) : List String :=
  let countdown := (rangeDown duration).flatMap
    (fun s => List.replicate frame_rate (pathJoin frames_folder (frameFileName s)))
  let alarm_frames :=
    List.replicate (frame_rate * alarm_duration) (pathJoin frames_folder alarmFileName)
  countdown ++ alarm_frames

/-- Embedding of `check_or_generate_frames` over a filesystem modelled as a
membership predicate.  Returns the list of seconds whose frames were
generated (the Python `missing` list, `0` standing for the alarm frame) and
the filesystem after the `generate_frame` calls. -/
def check_or_generate_frames (duration : Nat) (frames_folder : String)
    (background_video : Bool) (fs : String → Bool) :
    List Nat × (String → Bool) :=
  let required_seconds := rangeDown duration
  let missing0 := required_seconds.filter
    (fun s => !fs (pathJoin frames_folder (frameFileName s)) || background_video)
  let alarm_path := pathJoin frames_folder alarmFileName
  let missing := if fs alarm_path then missing0 else missing0 ++ [0]
  (missing,
    fun p =>
      if p ∈ missing.map (fun s => pathJoin frames_folder (frameFileName s)) then true
      else fs p)

/-- §4.2's Frame Cache Manager: generate missing frames, then expose the
ordered frame path list (`check_or_generate_frames` followed by
`load_frame_paths`, as called by `generate_timer_video`). -/
def frameCacheManager (duration : Nat) (frames_folder : String)
    (frame_rate alarm_duration : Nat) (background_video : Bool)
    (fs : String → Bool) : List String × List Nat × (String → Bool) :=
  let r := check_or_generate_frames duration frames_folder background_video fs
  (load_frame_paths duration frames_folder frame_rate alarm_duration, r.1, r.2)

/-! ### Segment Reuse Resolver: `reuse_video` -/

/-- The characters of `os.path.basename(p)`: everything after the last
`'/'`. -/
def baseNameChars (l : List Char) : List Char :=
  (l.reverse.takeWhile (fun c => c ≠ '/')).reverse

/-- `os.path.basename` for POSIX paths. -/
def os_path_basename (p : String) : String := ⟨baseNameChars p.data⟩

/-- The characters of the head part of `posixpath.split`: the prefix up to
and including the last `'/'`, with trailing slashes stripped unless the
head consists only of slashes. -/
def dirNameChars (l : List Char) : List Char :=
  let head := l.take (l.length - (baseNameChars l).length)
  if head ≠ [] ∧ head.any (fun c => c ≠ '/') then
    (head.reverse.dropWhile (fun c => c = '/')).reverse
  else head

/-- `os.path.dirname` for POSIX paths. -/
def os_path_dirname (p : String) : String := ⟨dirNameChars p.data⟩

/-- `os.path.splitext` for POSIX paths: split at the last `'.'` provided it
lies inside the base name and the base name has a non-dot character before
it (so purely dotted prefixes such as `".bashrc"` carry no extension). -/
def splitextChars (l : List Char) : List Char × List Char :=
  let b := baseNameChars l
  let revB := b.reverse
  if '.' ∈ b then
    let revTail := revB.takeWhile (fun c => c ≠ '.')
    let revPre := (revB.dropWhile (fun c => c ≠ '.')).drop 1
    if revPre.any (fun c => c ≠ '.') then
      (l.take (l.length - (revTail.length + 1)),
       l.drop (l.length - (revTail.length + 1)))
    else (l, [])
  else (l, [])

/-- `os.path.splitext` as used in `reuse_video`. -/
def os_path_splitext (p : String) : String × String :=
  ((splitextChars p.data).1.asString, (splitextChars p.data).2.asString)

/-- Full match of `re.match(r'(timer_\d+m)(?:_\d+)?$', ·)`: returns group 1
(`timer_<digits>m`) when the whole string is `timer_<digits>m` optionally
followed by `_<digits>`. -/
def matchTimerBase (l : List Char) : Option (List Char) :=
  if l.take 6 = "timer_".data then
    let rest := l.drop 6
    let ds := rest.takeWhile Char.isDigit
    let rest2 := rest.dropWhile Char.isDigit
    if ds = [] then none
    else
      match rest2 with
      | 'm' :: rest3 =>
        let group1 := "timer_".data ++ ds ++ ['m']
        match rest3 with
        | [] => some group1
        | '_' :: ds2 =>
          if ds2 ≠ [] ∧ ds2.all Char.isDigit then some group1 else none
        | _ => none
      | _ => none
  else none

/-- The canonical source path `reuse_video` derives from a requested output
path: directory of the request joined with the canonical base name
(repetition suffix stripped) plus the original extension. -/
def canonicalSource (video_path : String) : Option String :=
  (matchTimerBase (os_path_splitext (os_path_basename video_path)).1.data).map
    (fun g1 => pathJoin (os_path_dirname video_path)
      (g1.asString ++ (os_path_splitext (os_path_basename video_path)).2))

/-- Embedding of `reuse_video` over a filesystem membership predicate.
`copyFails` is the oracle for an I/O failure of `shutil.copy`; a copy of a
path onto itself raises `shutil.SameFileError` (an `OSError`), and both
kinds of `OSError` are caught and reported as `False`.  Returns the flag
and the filesystem afterwards. -/
def reuse_video (fs : String → Bool) (copyFails : Bool) (video_path : String) :
    Bool × (String → Bool) :=
  match canonicalSource video_path with
  | some source_path =>
    if fs source_path then
      if source_path = video_path ∨ copyFails then (false, fs)
      else (true, fun p => if p = video_path then true else fs p)
    else (false, fs)
  | none => (false, fs)

/-! ### Audio preparation: `prepare_audio`

`pydub` audio segments are modelled by their length in milliseconds:
`AudioSegment.from_file` is a length oracle `fileLen`, `silent(d)` has
length `d`, slicing `seg[:n]` gives `min len n`, repetition `seg * k`
multiplies the length, concatenation `a + b` adds lengths, and
`Sine(...).to_audio_segment(duration=ms)` has length `ms`.  Looping a
zero-length segment raises `ZeroDivisionError` (`required // 0`). -/

/-- Python truthiness of the optional `background_music_path` argument. -/
def pyTruthy : Option String → Bool
  | none => false
  | some s => if s = "" then false else true

/-- Length of the background part of `prepare_audio`: background music
looped/clipped to `duration` seconds, or silence of that length. -/
def bgSegmentLen (duration : Nat) (background_music_path : Option String)
    (fileLen : String → Nat) : Except String Nat :=
  if pyTruthy background_music_path then
    let bg_ms := fileLen (background_music_path.getD "")
    let required_ms := duration * 1000
    if bg_ms < required_ms then
      if bg_ms = 0 then Except.error "ZeroDivisionError"
      else Except.ok (min (bg_ms * (required_ms / bg_ms + 1)) required_ms)
    else Except.ok (min bg_ms required_ms)
  else Except.ok (duration * 1000)

/-- Length of the alarm part of `prepare_audio`: the alarm tone (generated
sine of exactly `alarm_duration` seconds when the sentinel default
`"alarm.mp3"` is in effect, otherwise read from file), looped if shorter
than `alarm_duration` seconds and then clipped to it. -/
def alarmSegmentLen (alarm_duration : Nat) (alarm_sound_path : String)
    (fileLen : String → Nat) : Except String Nat :=
  let alarm0_ms := if alarm_sound_path = "alarm.mp3" then alarm_duration * 1000
    else fileLen alarm_sound_path
  let required_alarm_ms := alarm_duration * 1000
  if alarm0_ms < required_alarm_ms then
    if alarm0_ms = 0 then Except.error "ZeroDivisionError"
    else Except.ok (min (alarm0_ms * (required_alarm_ms / alarm0_ms + 1))
      required_alarm_ms)
  else Except.ok (min alarm0_ms required_alarm_ms)

/-- Embedding of `prepare_audio`: the exported combined track's length is
the background segment's length plus the clipped alarm's length. -/
def prepare_audio (duration alarm_duration : Nat) (alarm_sound_path : String)
    (background_music_path : Option String) (fileLen : String → Nat) :
    Except String Nat := do
  let bg_segment ← bgSegmentLen duration background_music_path fileLen
  let alarm ← alarmSegmentLen alarm_duration alarm_sound_path fileLen
  pure (bg_segment + alarm)

/-! ### Timer Render Orchestrator: control flow of `generate_timer_video` -/

/-- Outcomes of the fallible collaborator calls made by
`generate_timer_video` after the reuse check, in program order: frame
generation (`check_or_generate_frames` / PIL), clip construction and
optional background compositing (`ImageSequenceClip`,
`create_background_video_clip`, `overlay_timer_on_background`), audio
preparation and export (`prepare_audio` / pydub), and the final encode
(`write_videofile`). -/
structure RenderOutcomes where
  framesOk : Bool
  composeOk : Bool
  audioOk : Bool
  encodeOk : Bool

/-- Result of one orchestrator invocation: whether the call returned
without an exception, whether it terminated at the reuse-hit check, and
whether the ephemeral `sounds` working directory exists when the
invocation ends. -/
structure OrchestratorResult where
  ok : Bool
  viaReuse : Bool
  soundsDirExists : Bool
deriving DecidableEq, Repr

/-- Control-flow embedding of `generate_timer_video`: `if
reuse_video(output_video): return` comes first; on a miss,
`os.makedirs(sound_folder, exist_ok=True)` creates the `sounds` directory
before any fallible state runs, the states run in sequence (an exception in
any of them propagates to the caller immediately), and
`shutil.rmtree(sound_folder)` is the last statement of the function body —
it is not inside any `try/finally`. -/
def generate_timer_video (reuseHit : Bool) (env : RenderOutcomes)
    (soundsDirAtStart : Bool) : OrchestratorResult :=
  if reuseHit then ⟨true, true, soundsDirAtStart⟩
  else if !env.framesOk then ⟨false, false, true⟩
  else if !env.composeOk then ⟨false, false, true⟩
  else if !env.audioOk then ⟨false, false, true⟩
  else if !env.encodeOk then ⟨false, false, true⟩
  else ⟨true, false, false⟩

/-! ### Lemmas and claim theorems -/

lemma pyStrCoreF_zero (fuel : Nat) (acc : List Char) :
    pyStrCoreF fuel 0 acc = acc := by
  cases fuel <;> simp [pyStrCoreF]

lemma pyStrCoreF_fuel_irrel (fuel : Nat) :
    ∀ fuel' n acc, n ≤ fuel → n ≤ fuel' →
      pyStrCoreF fuel n acc = pyStrCoreF fuel' n acc := by
  induction fuel with
  | zero =>
    intro fuel' n acc h _
    have : n = 0 := Nat.le_zero.mp h
    subst this
    rw [pyStrCoreF_zero, pyStrCoreF_zero]
  | succ fuel ih =>
    intro fuel' n acc h h'
    by_cases hn : n = 0
    · subst hn; rw [pyStrCoreF_zero, pyStrCoreF_zero]
    · cases fuel' with
      | zero => exact absurd (Nat.le_zero.mp h') hn
      | succ fuel' =>
        simp only [pyStrCoreF, if_neg hn]
        have hlt : n / 10 < n := Nat.div_lt_self (Nat.pos_of_ne_zero hn) (by decide)
        exact ih fuel' (n / 10) _ (by omega) (by omega)

lemma pyStrCore_zero (acc : List Char) : pyStrCore 0 acc = acc :=
  pyStrCoreF_zero 0 acc

lemma pyStrCore_pos {n : Nat} (h : n ≠ 0) (acc : List Char) :
    pyStrCore n acc = pyStrCore (n / 10) (pyDigit (n % 10) :: acc) := by
  obtain ⟨m, rfl⟩ : ∃ m, n = m + 1 := ⟨n - 1, by omega⟩
  have hdiv : (m + 1) / 10 ≤ m :=
    by have := Nat.div_lt_self (Nat.succ_pos m) (by decide : 1 < 10); omega
  show pyStrCoreF (m + 1) (m + 1) acc =
    pyStrCoreF ((m + 1) / 10) ((m + 1) / 10) (pyDigit ((m + 1) % 10) :: acc)
  rw [pyStrCoreF, if_neg h]
  exact pyStrCoreF_fuel_irrel m _ _ _ hdiv (Nat.le_refl _)

lemma pyStrCore_eq_append (n : Nat) (acc : List Char) :
    pyStrCore n acc = pyStrCore n [] ++ acc := by
  induction n using Nat.strong_induction_on generalizing acc with
  | _ n ih =>
    by_cases h : n = 0
    · subst h; rw [pyStrCore_zero, pyStrCore_zero]; simp
    · rw [pyStrCore_pos h, pyStrCore_pos h []]
      have hlt : n / 10 < n := Nat.div_lt_self (Nat.pos_of_ne_zero h) (by decide)
      rw [ih _ hlt (pyDigit (n % 10) :: acc), ih _ hlt [pyDigit (n % 10)]]
      simp

lemma pyDigit_isDigit {d : Nat} (h : d < 10) : (pyDigit d).isDigit := by
  interval_cases d <;> decide

lemma pyStrCore_all_digit (n : Nat) :
    ∀ c ∈ pyStrCore n [], c.isDigit := by
  induction n using Nat.strong_induction_on with
  | _ n ih =>
    intro c hc
    by_cases h : n = 0
    · rw [h, pyStrCore_zero] at hc; simp at hc
    · rw [pyStrCore_pos h, pyStrCore_eq_append] at hc
      rcases List.mem_append.mp hc with h1 | h2
      · exact ih _ (Nat.div_lt_self (Nat.pos_of_ne_zero h) (by decide)) c h1
      · have : c = pyDigit (n % 10) := by simpa using h2
        subst this
        exact pyDigit_isDigit (Nat.mod_lt _ (by decide))

lemma pyStrChars_all_digit (n : Nat) : ∀ c ∈ pyStrChars n, c.isDigit := by
  intro c hc
  by_cases h : n = 0
  · rw [pyStrChars, if_pos h] at hc
    have : c = '0' := List.mem_singleton.mp hc
    subst this; decide
  · rw [pyStrChars, if_neg h] at hc
    exact pyStrCore_all_digit n c hc

lemma charsVal_from (a : Nat) (cs : List Char) :
    cs.foldl (fun a c => a * 10 + (c.toNat - '0'.toNat)) a =
      a * 10 ^ cs.length + charsVal cs := by
  show _ = _ + cs.foldl (fun a c => a * 10 + (c.toNat - '0'.toNat)) 0
  induction cs generalizing a with
  | nil => simp
  | cons c cs ih =>
    rw [List.foldl_cons, List.foldl_cons, ih, ih (0 * 10 + (c.toNat - '0'.toNat))]
    simp only [List.length_cons]
    ring

lemma pyDigit_toNat {d : Nat} (h : d < 10) :
    (pyDigit d).toNat - '0'.toNat = d := by
  interval_cases d <;> decide

lemma charsVal_pyStrCore (n : Nat) : charsVal (pyStrCore n []) = n := by
  induction n using Nat.strong_induction_on with
  | _ n ih =>
    by_cases h : n = 0
    · rw [h, pyStrCore_zero]; simp [charsVal]
    · rw [pyStrCore_pos h, pyStrCore_eq_append]
      unfold charsVal
      rw [List.foldl_append]
      have : List.foldl (fun a c => a * 10 + (c.toNat - '0'.toNat)) 0
          (pyStrCore (n / 10) []) = n / 10 :=
        ih _ (Nat.div_lt_self (Nat.pos_of_ne_zero h) (by decide))
      rw [this]
      simp only [List.foldl_cons, List.foldl_nil]
      rw [pyDigit_toNat (Nat.mod_lt _ (by decide))]
      have := Nat.div_add_mod n 10
      omega

lemma charsVal_pyStrChars (n : Nat) : charsVal (pyStrChars n) = n := by
  by_cases h : n = 0
  · simp [pyStrChars, h, charsVal]
  · rw [pyStrChars, if_neg h]; exact charsVal_pyStrCore n

lemma pyStrChars_injective : Function.Injective pyStrChars := by
  intro m n h
  have := charsVal_pyStrChars m
  rw [h, charsVal_pyStrChars] at this
  exact this.symm

lemma pyStrChars_ne_nil (n : Nat) : pyStrChars n ≠ [] := by
  by_cases h : n = 0
  · simp [pyStrChars, h]
  · rw [pyStrChars, if_neg h]
    intro hnil
    have := charsVal_pyStrCore n
    rw [hnil] at this
    simp [charsVal] at this
    exact h this.symm

lemma pyStr_injective : Function.Injective pyStr := by
  intro m n h
  exact pyStrChars_injective (congrArg String.data h)

/-- If two digit-only prefixes are followed by tails whose heads are not
digits, equality of the concatenations forces equality of the parts. -/
lemma digit_prefix_cancel :
    ∀ (xs ys t t' : List Char), (∀ c ∈ xs, c.isDigit) → (∀ c ∈ ys, c.isDigit) →
    (∀ c ∈ t.head?, ¬ c.isDigit) → (∀ c ∈ t'.head?, ¬ c.isDigit) →
    xs ++ t = ys ++ t' → xs = ys ∧ t = t' := by
  intro xs
  induction xs with
  | nil =>
    intro ys t t' _ hys ht ht' heq
    cases ys with
    | nil => exact ⟨rfl, heq⟩
    | cons y ys =>
      exfalso
      simp only [List.nil_append, List.cons_append] at heq
      subst heq
      exact ht y rfl (hys y (by simp))
  | cons x xs ih =>
    intro ys t t' hxs hys ht ht' heq
    cases ys with
    | nil =>
      exfalso
      simp only [List.cons_append, List.nil_append] at heq
      subst heq
      exact ht' x rfl (hxs x (by simp))
    | cons y ys =>
      simp only [List.cons_append, List.cons.injEq] at heq
      obtain ⟨hxy, hrest⟩ := heq
      obtain ⟨h1, h2⟩ := ih ys t t' (fun c hc => hxs c (by simp [hc]))
        (fun c hc => hys c (by simp [hc])) ht ht' hrest
      exact ⟨by rw [hxy, h1], h2⟩

lemma listMul_length {α : Type} (l : List α) (k : Nat) :
    (listMul l k).length = k * l.length := by
  simp [listMul]

lemma takeWhile_mapM_append (pending : List Nat) (rest : List TimerToken) :
    ((pending.map TimerToken.m) ++ rest).takeWhile isMinuteTok =
      pending.map TimerToken.m ++ rest.takeWhile isMinuteTok := by
  induction pending with
  | nil => simp
  | cons p ps ih => simp [List.takeWhile_cons, isMinuteTok, ih]

lemma dropWhile_mapM_append (pending : List Nat) (rest : List TimerToken) :
    ((pending.map TimerToken.m) ++ rest).dropWhile isMinuteTok =
      rest.dropWhile isMinuteTok := by
  induction pending with
  | nil => simp
  | cons p ps ih => simp [List.dropWhile_cons, isMinuteTok, ih]

lemma map_tokVal_mapM (l : List Nat) : (l.map TimerToken.m).map tokVal = l := by
  induction l with
  | nil => rfl
  | cons a l ih => simp [tokVal, ih]

lemma specScan_allM (pending : List Nat) :
    specScan (pending.map TimerToken.m) = pending := by
  rw [specScan]
  have hd : (pending.map TimerToken.m).dropWhile isMinuteTok = [] := by
    have := dropWhile_mapM_append pending []
    simpa using this
  split
  · have ht : (pending.map TimerToken.m).takeWhile isMinuteTok =
        pending.map TimerToken.m := by
      have := takeWhile_mapM_append pending []
      simpa using this
    rw [ht, map_tokVal_mapM]
  · rename_i t rest heq
    rw [hd] at heq
    exact absurd heq (by simp)

lemma specScan_batch (pending : List Nat) (k : Nat) (rest : List TimerToken) :
    specScan (pending.map TimerToken.m ++ (TimerToken.x k :: rest)) =
      listMul pending k ++ specScan rest := by
  rw [specScan]
  have hd : (pending.map TimerToken.m ++ (TimerToken.x k :: rest)).dropWhile
      isMinuteTok = TimerToken.x k :: rest := by
    rw [dropWhile_mapM_append]
    simp [List.dropWhile_cons, isMinuteTok]
  split
  · rename_i heq
    rw [hd] at heq
    exact absurd heq (by simp)
  · rename_i t rest' heq
    rw [hd] at heq
    injection heq with h1 h2
    subst h1
    subst h2
    have ht : (pending.map TimerToken.m ++ (TimerToken.x k :: rest)).takeWhile
        isMinuteTok = pending.map TimerToken.m := by
      rw [takeWhile_mapM_append]
      simp [List.takeWhile_cons, isMinuteTok]
    rw [ht, map_tokVal_mapM]
    rfl

lemma parseTimersLoop_timers (toks : List TimerToken) :
    ∀ timers pending, parseTimersLoop toks timers pending =
      timers ++ parseTimersLoop toks [] pending := by
  induction toks with
  | nil => intro timers pending; simp [parseTimersLoop]
  | cons t rest ih =>
    intro timers pending
    cases t with
    | m n => simp only [parseTimersLoop]; rw [ih timers, ih []]
    | x k =>
      simp only [parseTimersLoop]
      rw [ih (timers ++ listMul pending k), ih ([] ++ listMul pending k)]
      simp

lemma parseTimersLoop_eq_specScan (toks : List TimerToken) :
    ∀ pending, parseTimersLoop toks [] pending =
      specScan (pending.map TimerToken.m ++ toks) := by
  induction toks with
  | nil =>
    intro pending
    simp only [parseTimersLoop, List.append_nil, List.nil_append]
    rw [specScan_allM]
  | cons t rest ih =>
    intro pending
    cases t with
    | m n =>
      simp only [parseTimersLoop]
      rw [ih (pending ++ [n])]
      congr 1
      simp
    | x k =>
      simp only [parseTimersLoop]
      rw [parseTimersLoop_timers, ih [], specScan_batch]
      simp

lemma parseTimersLoop_length (toks : List TimerToken) :
    ∀ pending, (parseTimersLoop toks [] pending).length =
      expandedCountLoop toks pending.length := by
  induction toks with
  | nil => intro pending; simp [parseTimersLoop, expandedCountLoop]
  | cons t rest ih =>
    intro pending
    cases t with
    | m n =>
      simp only [parseTimersLoop, expandedCountLoop]
      rw [ih (pending ++ [n])]
      simp
    | x k =>
      simp only [parseTimersLoop, expandedCountLoop]
      rw [parseTimersLoop_timers, List.length_append, ih [], List.nil_append,
        listMul_length]
      simp

lemma baseName_data (m : Nat) :
    ("timer_" ++ pyStr m ++ "m").data = "timer_".data ++ (pyStrChars m ++ ['m']) := by
  simp [String.data_append, pyStr]

lemma baseName_inj {m m' : Nat}
    (h : "timer_" ++ pyStr m ++ "m" = "timer_" ++ pyStr m' ++ "m") : m = m' := by
  have hd := congrArg String.data h
  rw [baseName_data, baseName_data] at hd
  have := List.append_cancel_left hd
  have hparts := digit_prefix_cancel (pyStrChars m) (pyStrChars m') ['m'] ['m']
    (pyStrChars_all_digit m) (pyStrChars_all_digit m')
    (by intro c hc; simp at hc; subst hc; decide)
    (by intro c hc; simp at hc; subst hc; decide) this
  exact pyStrChars_injective hparts.1

lemma specName_data (m occ : Nat) :
    (specName m occ).data = "timer_".data ++ (pyStrChars m ++ ('m' ::
      (if occ = 1 then ".mp4".data else '_' :: (pyStrChars occ ++ ".mp4".data)))) := by
  by_cases h : occ = 1 <;>
    simp [specName, h, String.data_append, pyStr, List.append_assoc]

lemma specName_inj {m c m' c' : Nat}
    (h : specName m c = specName m' c') : m = m' ∧ c = c' := by
  have hd := congrArg String.data h
  rw [specName_data, specName_data] at hd
  have hmid := List.append_cancel_left hd
  have hparts := digit_prefix_cancel (pyStrChars m) (pyStrChars m') _ _
    (pyStrChars_all_digit m) (pyStrChars_all_digit m')
    (by intro ch hch; simp at hch; subst hch; decide)
    (by intro ch hch; simp at hch; subst hch; decide) hmid
  refine ⟨pyStrChars_injective hparts.1, ?_⟩
  have htail := hparts.2
  have htail' : (if c = 1 then ".mp4".data else '_' :: (pyStrChars c ++ ".mp4".data)) =
      (if c' = 1 then ".mp4".data else '_' :: (pyStrChars c' ++ ".mp4".data)) := by
    injection htail
  by_cases h1 : c = 1 <;> by_cases h2 : c' = 1
  · rw [h1, h2]
  · rw [if_pos h1, if_neg h2] at htail'
    exact absurd htail' (by simp [String.data])
  · rw [if_neg h1, if_pos h2] at htail'
    exact absurd htail' (by simp [String.data])
  · rw [if_neg h1, if_neg h2] at htail'
    have hsub : pyStrChars c ++ ".mp4".data = pyStrChars c' ++ ".mp4".data := by
      injection htail'
    have := digit_prefix_cancel (pyStrChars c) (pyStrChars c') _ _
      (pyStrChars_all_digit c) (pyStrChars_all_digit c')
      (by intro ch hch; simp [String.data] at hch; subst hch; decide)
      (by intro ch hch; simp [String.data] at hch; subst hch; decide) hsub
    exact pyStrChars_injective this.1

lemma count_append_singleton (seen : List Nat) (a m : Nat) :
    (seen ++ [a]).count m = seen.count m + if m = a then 1 else 0 := by
  by_cases h : m = a <;> simp [List.count_append, List.count_singleton, h]

lemma assignNamesLoop_eq_specNamesFrom (timers : List Nat) :
    ∀ counter seen, CounterInv counter seen →
      assignNamesLoop timers counter = specNamesFrom seen timers := by
  induction timers with
  | nil => intro counter seen _; rfl
  | cons minutes rest ih =>
    intro counter seen hinv
    have hbase := hinv minutes
    simp only [assignNamesLoop, specNamesFrom]
    by_cases hz : seen.count minutes = 0
    · rw [if_pos hz] at hbase
      rw [hbase]
      dsimp only
      congr 1
      · rw [hz, specName]
        simp
      · apply ih
        intro m
        dsimp only
        rw [count_append_singleton]
        by_cases hm : m = minutes
        · subst hm
          rw [if_pos rfl, if_pos rfl, hz]
          simp
        · rw [if_neg hm]
          have hne : "timer_" ++ pyStr m ++ "m" ≠ "timer_" ++ pyStr minutes ++ "m" :=
            fun hcontra => hm (baseName_inj hcontra)

          rw [if_neg hne]
          simpa using hinv m
    · rw [if_neg hz] at hbase
      rw [hbase]
      dsimp only
      congr 1
      · rw [specName, if_neg (by omega)]
      · apply ih
        intro m
        dsimp only
        rw [count_append_singleton]
        by_cases hm : m = minutes
        · subst hm
          rw [if_pos rfl, if_pos rfl]
          simp only [if_neg (by omega : ¬ seen.count m + 1 = 0)]
        · rw [if_neg hm]
          have hne : "timer_" ++ pyStr m ++ "m" ≠ "timer_" ++ pyStr minutes ++ "m" :=
            fun hcontra => hm (baseName_inj hcontra)
          rw [if_neg hne]
          simpa using hinv m

lemma fileNamesOf_eq_specNames (timers : List Nat) :
    fileNamesOf timers = specNames timers := by
  apply assignNamesLoop_eq_specNamesFrom
  intro m
  simp

lemma assignNamesLoop_length (timers : List Nat) :
    ∀ counter, (assignNamesLoop timers counter).length = timers.length := by
  induction timers with
  | nil => intro counter; rfl
  | cons minutes rest ih =>
    intro counter
    simp only [assignNamesLoop]
    by_cases h : ∃ c, counter ("timer_" ++ pyStr minutes ++ "m") = some c
    · obtain ⟨c, hc⟩ := h
      rw [hc]
      simp [ih]
    · have : counter ("timer_" ++ pyStr minutes ++ "m") = none := by
        cases hcc : counter ("timer_" ++ pyStr minutes ++ "m") with
        | none => rfl
        | some c => exact absurd ⟨c, hcc⟩ h
      rw [this]
      simp [ih]

lemma fileNamesOf_length (timers : List Nat) :
    (fileNamesOf timers).length = timers.length :=
  assignNamesLoop_length timers _

lemma parse_fst (expression : String) :
    (parse_timer_expression expression).map Prod.fst = timersOfExpr expression := by
  apply List.map_fst_zip
  rw [fileNamesOf_length]

lemma parse_snd (expression : String) :
    (parse_timer_expression expression).map Prod.snd =
      fileNamesOf (timersOfExpr expression) := by
  apply List.map_snd_zip
  rw [fileNamesOf_length]

lemma count_le_count_append_singleton (seen : List Nat) (a m : Nat) :
    seen.count m ≤ (seen ++ [a]).count m := by
  rw [count_append_singleton]
  omega

lemma mem_specNamesFrom {name : String} :
    ∀ (timers seen : List Nat), name ∈ specNamesFrom seen timers →
      ∃ m c, name = specName m c ∧ seen.count m + 1 ≤ c := by
  intro timers
  induction timers with
  | nil => intro seen h; simp [specNamesFrom] at h
  | cons minutes rest ih =>
    intro seen h
    rcases List.mem_cons.mp h with h1 | h2
    · exact ⟨minutes, seen.count minutes + 1, h1, Nat.le_refl _⟩
    · obtain ⟨m, c, heq, hge⟩ := ih (seen ++ [minutes]) h2
      exact ⟨m, c, heq,
        le_trans (Nat.add_le_add_right (count_le_count_append_singleton seen minutes m) 1) hge⟩

lemma specNamesFrom_nodup : ∀ (timers seen : List Nat),
    (specNamesFrom seen timers).Nodup := by
  intro timers
  induction timers with
  | nil => intro seen; exact List.nodup_nil
  | cons minutes rest ih =>
    intro seen
    rw [specNamesFrom, List.nodup_cons]
    refine ⟨?_, ih (seen ++ [minutes])⟩
    intro hmem
    obtain ⟨m, c, heq, hge⟩ := mem_specNamesFrom rest (seen ++ [minutes]) hmem
    obtain ⟨rfl, hc⟩ := specName_inj heq
    rw [count_append_singleton, if_pos rfl] at hge
    omega

/-! ### Claim theorems for the Expression Compiler -/

/-- C2 (counterexample): compiling `"m25m5x2m15"` does **not** give durations
in minutes `[25, 5, 5, 15]`: the repeat token `x2` multiplies the whole
pending batch `[25, 5]`, so the durations are `[25, 5, 25, 5, 15]`. -/
theorem C2_counterexample :
    (parse_timer_expression "m25m5x2m15").map Prod.fst ≠ [25, 5, 5, 15] := by
  decide

/-- C2 (amended): compiling the expression `"m25m5x2m15"` yields exactly five
timers with durations in minutes `[25, 5, 25, 5, 15]` and filenames
`["timer_25m.mp4", "timer_5m.mp4", "timer_25m_2.mp4", "timer_5m_2.mp4",
"timer_15m.mp4"]`, in that order. -/
theorem C2_compile_example :
    parse_timer_expression "m25m5x2m15" =
      [(25, "timer_25m.mp4"), (5, "timer_5m.mp4"), (25, "timer_25m_2.mp4"),
       (5, "timer_5m_2.mp4"), (15, "timer_15m.mp4")] := by
  decide

/-- C3 (counterexample): compiling `"m10"` yields first component `10`
(minutes), not `600` (seconds). -/
theorem C3_counterexample :
    (parse_timer_expression "m10").map Prod.fst ≠ [600] := by
  decide

/-- C3 (amended): the Expression Compiler's output is an ordered list of
pairs whose first component is the duration in **minutes** (so `"m10"`
yields the single pair `(10, "timer_10m.mp4")`); the Multi-Timer Driver
multiplies each by 60, so the `durationSeconds` values actually passed to
the renderer are the minute values times 60, preserving the expression's
left-to-right order including repeated expansions. -/
theorem C3_minutes_then_scaled (expression : String) :
    (parse_timer_expression expression).map Prod.fst = timersOfExpr expression ∧
    (mainSegmentCalls expression).map Prod.fst =
      (timersOfExpr expression).map (fun minutes => minutes * 60) ∧
    parse_timer_expression "m10" = [(10, "timer_10m.mp4")] := by
  refine ⟨parse_fst expression, ?_, by decide⟩
  rw [mainSegmentCalls, List.map_map, show (Prod.fst ∘ fun p : Nat × String =>
    (p.1 * 60, p.2)) = (fun p : Nat × String => p.1 * 60) from rfl,
    show (fun p : Nat × String => p.1 * 60) = (fun minutes => minutes * 60) ∘ Prod.fst
      from rfl, ← List.map_map, parse_fst]

/-- C4: for every expression, the compiled duration list equals the
batch-decomposition scan of the spec (minute tokens collected into a pending
batch; each `x k` appends the batch repeated `k` times and resets it; a
trailing batch is appended once), and its length is the number of minute
tokens after expansion. -/
theorem C4_scan_algorithm (expression : String) :
    timersOfExpr expression = specScan (findTimerTokens expression.data) ∧
    (timersOfExpr expression).length = expandedCount (findTimerTokens expression.data) := by
  constructor
  · show parseTimersLoop _ [] [] = _
    rw [parseTimersLoop_eq_specScan]
    simp
  · show (parseTimersLoop _ [] []).length = _
    rw [parseTimersLoop_length]
    rfl

/-- C8: in the compiled expression's filename list, the first occurrence of
each minute value gets the unsuffixed base name and every later occurrence
of the same minute value gets an incrementing suffix starting at 2, the
counter being keyed by minute value and scoped to the whole expression
(`specNames` is the spec's formulation of that rule). -/
theorem C8_naming_scheme (expression : String) :
    (parse_timer_expression expression).map Prod.snd =
      specNames (timersOfExpr expression) := by
  rw [parse_snd, fileNamesOf_eq_specNames]

/-- C10: for every input expression the filenames in the compiler's output
are pairwise distinct. -/
theorem C10_filenames_distinct (expression : String) :
    ((parse_timer_expression expression).map Prod.snd).Nodup := by
  rw [parse_snd, fileNamesOf_eq_specNames]
  exact specNamesFrom_nodup _ []

lemma frameFileName_zero : frameFileName 0 = alarmFileName := by decide

lemma flatMap_replicate_length {α β : Type} (l : List α) (r : Nat) (f : α → β) :
    (l.flatMap (fun s => List.replicate r (f s))).length = l.length * r := by
  induction l with
  | nil => simp
  | cons x xs ih => simp [ih, Nat.succ_mul, Nat.add_comm]

lemma rangeDown_length (d : Nat) : (rangeDown d).length = d := by
  simp [rangeDown]

/-! ### Claim theorems for the Frame Cache Manager -/

set_option maxRecDepth 40000

/-- C5: the frame path list has, for each second from `duration` down to 1,
that second's asset path `frame_rate` times, then the alarm path
`frame_rate × alarm_duration` times: total length `d*r + a*r`; duration 0
yields only the alarm hold; for d=3, r=24, a=5 the list is exactly the 192
paths `[frame(0:03)]*24 ++ [frame(0:02)]*24 ++ [frame(0:01)]*24 ++
[alarm]*120`. -/
theorem C5_frame_sequence (d r a : Nat) (folder : String) :
    (load_frame_paths d folder r a).length = d * r + a * r ∧
    load_frame_paths 0 folder r a =
      List.replicate (r * a) (pathJoin folder alarmFileName) ∧
    load_frame_paths 3 "timer_frames" 24 5 =
      List.replicate 24 "timer_frames/frame_0003.png" ++
      List.replicate 24 "timer_frames/frame_0002.png" ++
      List.replicate 24 "timer_frames/frame_0001.png" ++
      List.replicate 120 "timer_frames/frame_0000.png" ∧
    (load_frame_paths 3 "timer_frames" 24 5).length = 192 := by
  refine ⟨?_, ?_, by decide, by decide⟩
  · simp only [load_frame_paths]
    rw [List.length_append, flatMap_replicate_length, rangeDown_length,
      List.length_replicate]
    ring
  · simp [load_frame_paths, rangeDown]

lemma check_or_generate_fs_mono {fs : String → Bool} {p : String}
    (d : Nat) (folder : String) (bg : Bool) (h : fs p = true) :
    (check_or_generate_frames d folder bg fs).2 p = true := by
  simp only [check_or_generate_frames]
  split <;> simp [h]

lemma check_or_generate_covers (d : Nat) (folder : String) (bg : Bool)
    (fs : String → Bool) :
    ∀ s ∈ rangeDown d,
      (check_or_generate_frames d folder bg fs).2
        (pathJoin folder (frameFileName s)) = true := by
  intro s hs
  by_cases h : fs (pathJoin folder (frameFileName s)) = true
  · exact check_or_generate_fs_mono d folder bg h
  · have hfalse : fs (pathJoin folder (frameFileName s)) = false :=
      Bool.eq_false_iff.mpr h
    have hmem0 : s ∈ (rangeDown d).filter
        (fun s => !fs (pathJoin folder (frameFileName s)) || bg) := by
      rw [List.mem_filter]
      exact ⟨hs, by rw [hfalse]; simp⟩
    simp only [check_or_generate_frames]
    have hmem : pathJoin folder (frameFileName s) ∈
        ((if fs (pathJoin folder alarmFileName) then
            (rangeDown d).filter (fun s => !fs (pathJoin folder (frameFileName s)) || bg)
          else
            (rangeDown d).filter (fun s => !fs (pathJoin folder (frameFileName s)) || bg)
              ++ [0]).map (fun s => pathJoin folder (frameFileName s))) := by
      split
      · exact List.mem_map_of_mem _ hmem0
      · exact List.mem_map_of_mem _ (List.mem_append_left _ hmem0)
    rw [if_pos hmem]

lemma check_or_generate_covers_alarm (d : Nat) (folder : String) (bg : Bool)
    (fs : String → Bool) :
    (check_or_generate_frames d folder bg fs).2
      (pathJoin folder alarmFileName) = true := by
  by_cases h : fs (pathJoin folder alarmFileName) = true
  · exact check_or_generate_fs_mono d folder bg h
  · have hfalse : fs (pathJoin folder alarmFileName) = false :=
      Bool.eq_false_iff.mpr h
    simp only [check_or_generate_frames, hfalse, if_neg, Bool.false_eq_true,
      not_false_iff]
    have hmem : pathJoin folder alarmFileName ∈
        (((rangeDown d).filter
            (fun s => !fs (pathJoin folder (frameFileName s)) || bg) ++ [0]).map
          (fun s => pathJoin folder (frameFileName s))) := by
      apply List.mem_map.mpr
      exact ⟨0, List.mem_append_right _ (by simp), by rw [frameFileName_zero]⟩
    rw [if_pos hmem]

lemma check_or_generate_second_empty (d : Nat) (folder : String)
    (fs : String → Bool) :
    (check_or_generate_frames d folder false
        (check_or_generate_frames d folder false fs).2) =
      ([], (check_or_generate_frames d folder false fs).2) := by
  set fs1 := (check_or_generate_frames d folder false fs).2 with hfs1
  have hcov := check_or_generate_covers d folder false fs
  have halarm := check_or_generate_covers_alarm d folder false fs
  rw [← hfs1] at hcov halarm
  have hfilter : (rangeDown d).filter
      (fun s => !fs1 (pathJoin folder (frameFileName s)) || false) = [] := by
    rw [List.filter_eq_nil_iff]
    intro s hs
    rw [hcov s hs]
    simp
  have hfix : (fun p => if p ∈ ([] : List Nat).map
      (fun s => pathJoin folder (frameFileName s)) then true else fs1 p) = fs1 := by
    funext p
    simp
  simp only [check_or_generate_frames, hfilter, halarm, if_true, hfix]

/-- C7 (counterexample): with a background video attached, the second
invocation for the same duration regenerates the per-second frame even
though it already exists on disk after the first invocation (second `1` is
in the second invocation's generation list). -/
theorem C7_counterexample :
    ((check_or_generate_frames 1 "timer_frames" true
        (check_or_generate_frames 1 "timer_frames" true (fun _ => false)).2).2
      "timer_frames/frame_0001.png" = true) ∧
    (1 ∈ (check_or_generate_frames 1 "timer_frames" true
        (check_or_generate_frames 1 "timer_frames" true (fun _ => false)).2).1) ∧
    ((check_or_generate_frames 1 "timer_frames" true (fun _ => false)).2
      "timer_frames/frame_0001.png" = true) := by
  refine ⟨?_, by decide, by decide⟩
  decide

/-- C7 (amended): without a background video, invoking the Frame Cache
Manager twice for the same duration produces identical frame path lists,
the second invocation generates nothing (so no asset existing on disk is
regenerated) and leaves the filesystem unchanged.  With a background video
attached, existing non-alarm frames are regenerated unconditionally. -/
theorem C7_cache_idempotent (d : Nat) (folder : String) (r a : Nat)
    (fs : String → Bool) :
    (frameCacheManager d folder r a false
        (frameCacheManager d folder r a false fs).2.2).1 =
      (frameCacheManager d folder r a false fs).1 ∧
    (frameCacheManager d folder r a false
        (frameCacheManager d folder r a false fs).2.2).2.1 = [] ∧
    (frameCacheManager d folder r a false
        (frameCacheManager d folder r a false fs).2.2).2.2 =
      (frameCacheManager d folder r a false fs).2.2 := by
  refine ⟨rfl, ?_, ?_⟩
  · show (check_or_generate_frames d folder false
        (check_or_generate_frames d folder false fs).2).1 = []
    rw [check_or_generate_second_empty]
  · show (check_or_generate_frames d folder false
        (check_or_generate_frames d folder false fs).2).2 =
      (check_or_generate_frames d folder false fs).2
    rw [check_or_generate_second_empty]

/-- C6: the Segment Reuse Resolver reports success (and then copies the
canonical file to the requested path) exactly when the requested base name
matches `timer_<N>m` optionally followed by `_<digits>`, the canonical
file exists in the same directory, the requested path differs from it and
the copy does not fail; in every other case (no pattern match, canonical
file absent, same-file copy, I/O failure) it reports `false` with the
filesystem unchanged — it never raises, so the caller falls back to a full
render. -/
theorem C6_reuse_contract (fs : String → Bool) (copyFails : Bool)
    (video_path : String) :
    ((reuse_video fs copyFails video_path).1 = true ↔
      ∃ src, canonicalSource video_path = some src ∧ fs src = true ∧
        src ≠ video_path ∧ copyFails = false) ∧
    (reuse_video fs copyFails video_path).2 =
      (if (reuse_video fs copyFails video_path).1 then
        (fun p => if p = video_path then true else fs p) else fs) := by
  cases h : canonicalSource video_path with
  | none => simp [reuse_video, h]
  | some src =>
    by_cases h1 : fs src = true
    · by_cases h2 : src = video_path ∨ copyFails = true
      · have hres : reuse_video fs copyFails video_path = (false, fs) := by
          simp [reuse_video, h, h1, if_pos h2]
        rw [hres]
        constructor
        · simp only [Bool.false_eq_true, false_iff]
          rintro ⟨src', heq, hfs, hne, hcf⟩
          rw [Option.some.injEq] at heq
          subst heq
          rcases h2 with h2 | h2
          · exact hne h2
          · rw [h2] at hcf; exact absurd hcf (by decide)
        · simp
      · have hcond : ¬(src = video_path ∨ copyFails = true) := h2
        have hres : reuse_video fs copyFails video_path =
            (true, fun p => if p = video_path then true else fs p) := by
          simp [reuse_video, h, h1, if_neg hcond]
        rw [hres]
        push_neg at h2
        refine ⟨?_, by simp⟩
        simp only [true_iff]
        refine ⟨src, rfl, h1, h2.1, ?_⟩
        cases hcf : copyFails
        · rfl
        · exact absurd hcf h2.2
    · have h1f : fs src = false := Bool.eq_false_iff.mpr h1
      have hres : reuse_video fs copyFails video_path = (false, fs) := by
        simp [reuse_video, h, h1f]
      rw [hres]
      constructor
      · simp only [Bool.false_eq_true, false_iff]
        rintro ⟨src', heq, hfs, hne, hcf⟩
        rw [Option.some.injEq] at heq
        subst heq
        rw [h1f] at hfs
        exact absurd hfs (by decide)
      · simp

/-- Witness for C6: `timer_5m.mp4` exists, `timer_5m_3.mp4` is requested,
the copy succeeds, and the resolver reports success. -/
theorem C6_reuse_contract_witness :
    (reuse_video (fun p => decide (p = "timer_5m.mp4")) false "timer_5m_3.mp4").1
      = true :=
  ((C6_reuse_contract (fun p => decide (p = "timer_5m.mp4")) false
      "timer_5m_3.mp4").1).mpr
    ⟨"timer_5m.mp4", by decide, by decide, by decide, rfl⟩

lemma loop_reaches {L req : Nat} (h : 0 < L) : req ≤ L * (req / L + 1) := by
  have h1 := Nat.div_add_mod req L
  have h2 := Nat.mod_lt req h
  calc req = L * (req / L) + req % L := h1.symm
    _ ≤ L * (req / L) + L := by omega
    _ = L * (req / L + 1) := by ring

lemma bgSegmentLen_ok (duration : Nat) (background_music_path : Option String)
    (fileLen : String → Nat)
    (hbg : pyTruthy background_music_path = true →
      0 < fileLen (background_music_path.getD "")) :
    bgSegmentLen duration background_music_path fileLen =
      Except.ok (duration * 1000) := by
  rw [bgSegmentLen]
  by_cases hb : pyTruthy background_music_path = true
  · rw [if_pos hb]
    have hL := hbg hb
    by_cases hlt : fileLen (background_music_path.getD "") < duration * 1000
    · rw [if_pos hlt, if_neg (by omega)]
      rw [Nat.min_eq_right (loop_reaches hL)]
    · rw [if_neg hlt, Nat.min_eq_right (by omega)]
  · rw [if_neg hb]

lemma alarmSegmentLen_ok (alarm_duration : Nat) (alarm_sound_path : String)
    (fileLen : String → Nat)
    (halarm : alarm_sound_path ≠ "alarm.mp3" → 0 < fileLen alarm_sound_path) :
    alarmSegmentLen alarm_duration alarm_sound_path fileLen =
      Except.ok (alarm_duration * 1000) := by
  rw [alarmSegmentLen]
  by_cases hp : alarm_sound_path = "alarm.mp3"
  · simp only [if_pos hp]
    rw [if_neg (lt_irrefl _), Nat.min_eq_right (Nat.le_refl _)]
  · simp only [if_neg hp]
    have hA := halarm hp
    by_cases hlt : fileLen alarm_sound_path < alarm_duration * 1000
    · rw [if_pos hlt, if_neg (by omega),
        Nat.min_eq_right (loop_reaches hA)]
    · rw [if_neg hlt, Nat.min_eq_right (by omega)]

/-- C9: for every non-negative duration `d` and alarm duration `a`, the
combined audio track built by `prepare_audio` (background music or silence
clipped/looped to `d` seconds, concatenated with the alarm tone
looped/clipped to `a` seconds) has length exactly `d*1000 + a*1000`
milliseconds, with or without a background music file — provided the
supplied audio files are non-empty (a zero-length source would raise
`ZeroDivisionError` in the looping arithmetic). -/
theorem C9_audio_duration (duration alarm_duration : Nat)
    (alarm_sound_path : String) (background_music_path : Option String)
    (fileLen : String → Nat)
    (hbg : pyTruthy background_music_path = true →
      0 < fileLen (background_music_path.getD ""))
    (halarm : alarm_sound_path ≠ "alarm.mp3" → 0 < fileLen alarm_sound_path) :
    prepare_audio duration alarm_duration alarm_sound_path
        background_music_path fileLen =
      Except.ok (duration * 1000 + alarm_duration * 1000) := by
  rw [prepare_audio, bgSegmentLen_ok duration background_music_path fileLen hbg,
    alarmSegmentLen_ok alarm_duration alarm_sound_path fileLen halarm]
  rfl

/-- Witness for C9: duration 2 s, alarm 5 s, the generated default alarm
tone and a 0.7 s background music file give a 7000 ms track. -/
theorem C9_audio_duration_witness :
    pyTruthy (some "music.mp3") = true ∧ 0 < (fun _ : String => 700) "music.mp3" ∧
    prepare_audio 2 5 "alarm.mp3" (some "music.mp3") (fun _ => 700) =
      Except.ok 7000 :=
  ⟨by decide, by decide,
    C9_audio_duration 2 5 "alarm.mp3" (some "music.mp3") (fun _ => 700)
      (fun _ => by decide) (fun h => absurd rfl h)⟩

/-- C1 (counterexample): an invocation that misses the reuse check and then
fails during frame preparation ends with the `sounds` directory still on
disk — cleanup did not run. -/
theorem C1_counterexample :
    (generate_timer_video false ⟨false, true, true, true⟩ false).viaReuse = false ∧
    (generate_timer_video false ⟨false, true, true, true⟩ false).ok = false ∧
    (generate_timer_video false ⟨false, true, true, true⟩ false).soundsDirExists
      = true := by
  decide

/-- C1 (amended): for every invocation that does not terminate at the
reuse-hit check, the ephemeral `sounds` directory is removed before the
invocation ends exactly when every state (frame preparation, compose,
audio preparation, encode) succeeds; when any state fails, the exception
propagates and the directory is left on disk. -/
theorem C1_cleanup_iff_success (env : RenderOutcomes) (s0 : Bool) :
    ((generate_timer_video false env s0).soundsDirExists = false ↔
      (generate_timer_video false env s0).ok = true) ∧
    ((generate_timer_video false env s0).ok = false →
      (generate_timer_video false env s0).soundsDirExists = true) := by
  obtain ⟨f, c, a, e⟩ := env
  cases f <;> cases c <;> cases a <;> cases e <;> cases s0 <;> decide

/-- Witness for C1's amended theorem at an all-states-succeed input: the
directory is removed. -/
theorem C1_cleanup_iff_success_witness :
    (generate_timer_video false ⟨true, true, true, true⟩ false).soundsDirExists
      = false :=
  ((C1_cleanup_iff_success ⟨true, true, true, true⟩ false).1).mpr (by decide)

end Countdown
